import Mathlib

/-!
Verification development for the presentation app repository.

The session and staged-edit orchestration core (Document Model, Edit Ledger,
stage and commit protocol, Stream Multiplexer, session lease) is described by
the specification but the repository ships only design documents for it, so
those parts are modelled here from the specification text. The shipped React
components (TemplatePreview, AgentActivityLog, ApiKeyGate) are embedded
directly from their TypeScript source.
-/

namespace PresentationApp

/-- Modelled from the spec: one element ("unit") of the Document Model, with a
stable 0-based index and an opaque content payload. The Edit Ledger core is
absent from the repository sources (only design documents describe it). -/
structure DocUnit where
  index : Nat
  content : String
deriving DecidableEq

/-- Modelled from the spec: the Document Model, an ordered sequence of units
plus a theme and a revision number. -/
structure Doc where
  units : List DocUnit
  theme : String
  revision : Nat
deriving DecidableEq

/-- Modelled from the spec: the operation of a staged edit. -/
inductive Operation where
  | add
  | update
  | delete
  | reorder
  | setTheme
deriving DecidableEq

/-- Modelled from the spec: the operation-specific payload of an edit. -/
structure EditParams where
  content : Option String := none
  toIndex : Option Nat := none
  theme : Option String := none
deriving DecidableEq

/-- Modelled from the spec: a staged (pending) edit. -/
structure PendingEdit where
  editId : Nat
  unitIndex : Option Nat
  operation : Operation
  params : EditParams
  preview : String
deriving DecidableEq

/-- Modelled from the spec: the immutable historical record of a pending edit
once applied, carrying the resulting document revision number. -/
structure AppliedEdit where
  edit : PendingEdit
  revision : Nat
deriving DecidableEq

/-- Modelled from the spec: errors raised by the stage call. -/
inductive StageError where
  | invalidTarget
  | invalidOperation
deriving DecidableEq

/-- Modelled from the spec: errors raised by the commit call, naming the
offending edit. -/
inductive CommitError where
  | commitConflict (offending : PendingEdit)
deriving DecidableEq

/-- Modelled from the spec: one session, owning the Document Model, the staged
set and the append-only applied history. -/
structure Session where
  doc : Doc
  pending : List PendingEdit
  history : List AppliedEdit
  nextEditId : Nat
deriving DecidableEq

/-- Modelled from the spec: which operations are unit-scoped; SET_THEME is a
whole-document operation. -/
def unitScoped : Operation → Bool
  | .setTheme => false
  | _ => true

/-- Modelled from the spec: schema validation of the params for the named
operation. -/
def paramsValid : Operation → EditParams → Bool
  | .add, p => p.content.isSome
  | .update, p => p.content.isSome
  | .delete, _ => true
  | .reorder, p => p.toIndex.isSome
  | .setTheme, p => p.theme.isSome

/-- Modelled from the spec: bounds validation of the target index for
unit-scoped operations; ADD additionally permits the index equal to the
current unit count (append). -/
def targetValid (doc : Doc) (op : Operation) (ui : Option Nat) : Bool :=
  if unitScoped op then
    match ui with
    | none => false
    | some i =>
      match op with
      | .add => decide (i ≤ doc.units.length)
      | _ => decide (i < doc.units.length)
  else true

/-- Modelled from the spec: the human-readable preview generated for a staged
edit. -/
def previewOf (op : Operation) (ui : Option Nat) : String :=
  (match op with
   | .add => "ADD"
   | .update => "UPDATE"
   | .delete => "DELETE"
   | .reorder => "REORDER"
   | .setTheme => "SET_THEME") ++
  (match ui with
   | some i => " at index " ++ toString i
   | none => "")

/-- Modelled from the spec: the pending edit a successful stage call creates,
with a fresh edit id and a generated preview. -/
def stagedEdit (s : Session) (op : Operation) (ui : Option Nat) (p : EditParams) :
    PendingEdit :=
  { editId := s.nextEditId, unitIndex := ui, operation := op, params := p,
    preview := previewOf op ui }

/-- Modelled from the spec: the session a successful stage call returns; the
new edit is appended to the staged set and the Document Model is untouched. -/
def stagedSession (s : Session) (op : Operation) (ui : Option Nat) (p : EditParams) :
    Session :=
  { s with pending := s.pending ++ [stagedEdit s op ui p],
           nextEditId := s.nextEditId + 1 }

/-- Modelled from the spec: stage validates the target and the params, then
appends the new pending edit to the staged set; it never mutates the Document
Model. -/
def stage (s : Session) (op : Operation) (ui : Option Nat) (p : EditParams) :
    Except StageError (PendingEdit × Session) :=
  if targetValid s.doc op ui then
    if paramsValid op p then
      .ok (stagedEdit s op ui p, stagedSession s op ui p)
    else .error .invalidOperation
  else .error .invalidTarget

/-- Modelled from the spec: re-number a unit list so indices are the contiguous
range starting at the given base. -/
def renumberFrom (k : Nat) : List DocUnit → List DocUnit
  | [] => []
  | u :: us => { u with index := k } :: renumberFrom (k + 1) us

/-- Modelled from the spec: re-number a unit list to contiguous indices 0..n-1,
as the spec requires after delete and reorder. -/
def renumber (us : List DocUnit) : List DocUnit :=
  renumberFrom 0 us

/-- Modelled from the spec: insert a unit at a position. -/
def insertAt : List DocUnit → Nat → DocUnit → List DocUnit
  | us, 0, u => u :: us
  | [], _ + 1, u => [u]
  | v :: rest, j + 1, u => v :: insertAt rest j u

/-- Modelled from the spec: remove the unit at a position. -/
def removeAt : List DocUnit → Nat → List DocUnit
  | [], _ => []
  | _ :: rest, 0 => rest
  | u :: rest, j + 1 => u :: removeAt rest j

/-- Modelled from the spec: replace the content payload of the unit at a
position, leaving every other unit and every index untouched. -/
def updateContent : List DocUnit → Nat → String → List DocUnit
  | [], _, _ => []
  | u :: rest, 0, c => { u with content := c } :: rest
  | u :: rest, j + 1, c => u :: updateContent rest j c

/-- Modelled from the spec: apply one staged edit to the Document Model,
validating it against the current document state; any validation failure is a
commit conflict naming this edit. -/
def applyOp (doc : Doc) (e : PendingEdit) : Except CommitError Doc :=
  match e.operation with
  | .add =>
    match e.unitIndex, e.params.content with
    | some i, some c =>
      if i ≤ doc.units.length then
        .ok { doc with units := renumber (insertAt doc.units i { index := i, content := c }) }
      else .error (.commitConflict e)
    | _, _ => .error (.commitConflict e)
  | .update =>
    match e.unitIndex, e.params.content with
    | some i, some c =>
      if i < doc.units.length then
        .ok { doc with units := updateContent doc.units i c }
      else .error (.commitConflict e)
    | _, _ => .error (.commitConflict e)
  | .delete =>
    match e.unitIndex with
    | some i =>
      if i < doc.units.length then
        .ok { doc with units := renumber (removeAt doc.units i) }
      else .error (.commitConflict e)
    | none => .error (.commitConflict e)
  | .reorder =>
    match e.unitIndex, e.params.toIndex with
    | some i, some j =>
      if i < doc.units.length then
        if j < doc.units.length then
          let u := doc.units.getD i { index := 0, content := "" }
          .ok { doc with units := renumber (insertAt (removeAt doc.units i) j u) }
        else .error (.commitConflict e)
      else .error (.commitConflict e)
    | _, _ => .error (.commitConflict e)
  | .setTheme =>
    match e.params.theme with
    | some t => .ok { doc with theme := t }
    | none => .error (.commitConflict e)

/-- Modelled from the spec: a later staged edit that references an index a
previously staged DELETE already removed is a conflicting pair and triggers a
commit conflict rather than silently picking a winner. -/
def conflictsDeleted (deleted : List Nat) (e : PendingEdit) : Bool :=
  match e.unitIndex with
  | some i => deleted.contains i
  | none => false

/-- Modelled from the spec: record the index removed by a staged DELETE so a
later edit targeting it is detected as a conflicting pair. -/
def recordDeleted (deleted : List Nat) (e : PendingEdit) : List Nat :=
  match e.operation, e.unitIndex with
  | .delete, some i => i :: deleted
  | _, _ => deleted

/-- Modelled from the spec: apply the staged edits strictly in staging order,
validating each against the current document state; the first failure aborts
the whole fold with a commit conflict naming the offending edit. -/
def commitFold (rev : Nat) (doc : Doc) (deleted : List Nat) :
    List PendingEdit → Except CommitError (Doc × List AppliedEdit)
  | [] => .ok (doc, [])
  | e :: rest =>
    if conflictsDeleted deleted e then .error (.commitConflict e)
    else
      match applyOp doc e with
      | .error err => .error err
      | .ok doc2 =>
        match commitFold rev doc2 (recordDeleted deleted e) rest with
        | .error err => .error err
        | .ok (docF, applied) => .ok (docF, { edit := e, revision := rev } :: applied)

/-- Modelled from the spec: commit applies all currently staged edits in
staging order as a single all-or-nothing transaction; on success the pending
set becomes empty, the Document Model advances to a new revision and the
applied edits are appended to the immutable history. -/
def commit (s : Session) : Except CommitError (List AppliedEdit × Session) :=
  match commitFold (s.doc.revision + 1) s.doc [] s.pending with
  | .error err => .error err
  | .ok (docF, applied) =>
    .ok (applied,
      { s with doc := { docF with revision := s.doc.revision + 1 },
               pending := [],
               history := s.history ++ applied })

/-- Modelled from the spec: clear the staged edits without applying them. -/
def discardPending (s : Session) : Session :=
  { s with pending := [] }

/-- Modelled from the spec: the staged edits in staging order. -/
def listPending (s : Session) : List PendingEdit :=
  s.pending

/-- The Document Model invariant the spec states: unit indices are exactly the
contiguous range 0..n-1. -/
def contiguous (doc : Doc) : Prop :=
  doc.units.map DocUnit.index = List.range doc.units.length

/-- The bounds condition the spec states for a target index of a unit-scoped
operation: within the current bounds, with ADD additionally permitted at the
current unit count. -/
def specIndexAllowed (doc : Doc) (op : Operation) (i : Nat) : Prop :=
  i < doc.units.length ∨ (op = .add ∧ i = doc.units.length)

/-- Modelled from the spec: the payload of a delivered stream frame, either a
wrapped orchestrator event or the BufferOverrun error that signals loss. -/
inductive FramePayload where
  | event (e : String)
  | overrun
deriving DecidableEq

/-- Modelled from the spec: one delivered stream event, carrying its sequence
number. -/
structure StreamEvent where
  sequence : Nat
  payload : FramePayload
deriving DecidableEq

/-- Modelled from the spec: wrap each event with a per-turn monotonic sequence
number, counting up from the origin. -/
def numberFrom (origin : Nat) : List FramePayload → List StreamEvent
  | [] => []
  | e :: rest => { sequence := origin, payload := e } :: numberFrom (origin + 1) rest

/-- Modelled from the spec: the Stream Multiplexer delivery for one turn with a
bounded buffer; when the event sequence exceeds the capacity, delivery is cut
off and terminated by a BufferOverrun error event, never a silent drop. -/
def muxDeliver (cap origin : Nat) (events : List String) : List StreamEvent :=
  if events.length ≤ cap then
    numberFrom origin (events.map FramePayload.event)
  else
    numberFrom origin ((events.take cap).map FramePayload.event ++ [FramePayload.overrun])

/-- Modelled from the spec: the observable lease events for one session; a
turn acquires the exclusive lease, a waiting turn observes SessionBusy after
its timeout, a holder releases. -/
inductive LeaseEvent where
  | acquired (t : Nat)
  | busy (t : Nat)
  | released (t : Nat)
deriving DecidableEq

/-- Modelled from the spec: admissible lease transitions for one session.
Acquisition succeeds only while the lease is free; SessionBusy is observed
only while it is held; only the holder releases. -/
def leaseStep : Option Nat → LeaseEvent → Option (Option Nat)
  | none, .acquired t => some (some t)
  | some _, .acquired _ => none
  | some h, .busy _ => some (some h)
  | none, .busy _ => none
  | some h, .released t => if t = h then some none else none
  | none, .released _ => none

/-- Modelled from the spec: run a trace of lease events from a state; the
result is none when the trace is not admissible. -/
def runLease : Option Nat → List LeaseEvent → Option (Option Nat)
  | st, [] => some st
  | st, e :: rest =>
    match leaseStep st e with
    | none => none
    | some st2 => runLease st2 rest

/-- Whether a lease event is a release. -/
def isRelease : LeaseEvent → Bool
  | .released _ => true
  | _ => false

/-- From src/web/src/components/TemplatePreview.tsx: one extracted screenshot
of a parsed template. -/
structure Screenshot where
  data : String
  index : Nat
deriving DecidableEq

/-- From src/web/src/components/TemplatePreview.tsx: the template parsing
result the component receives. -/
structure TemplateResult where
  filename : String
  screenshots : List Screenshot
deriving DecidableEq

/-- From src/web/src/components/TemplatePreview.tsx: the caption text rendered
under the preview. -/
def templatePreviewCaption (t : TemplateResult) : String :=
  if t.screenshots.length > 0 then
    toString t.screenshots.length ++ " screenshot" ++
      (if t.screenshots.length != 1 then "s" else "") ++ " extracted"
  else
    "Text content extracted"

/-- From src/web/src/components/TemplatePreview.tsx: the screenshot images
rendered by the component; the image strip is rendered only when the
screenshot list is non-empty. -/
def templatePreviewImages (t : TemplateResult) : List Screenshot :=
  if t.screenshots.length > 0 then t.screenshots else []

/-- From the AgentActivityLog component source: one agent log entry. -/
structure AgentLogEntry where
  type : String
  content : Option String := none
  toolName : Option String := none
  message : Option String := none
  thinkingSnippet : Option String := none
deriving DecidableEq, Inhabited

/-- JavaScript string truthiness: undefined and the empty string are falsy. -/
def isTruthy : Option String → Bool
  | none => false
  | some s => !(s == "")

/-- From the AgentActivityLog component source: the description text for one
log entry. -/
def getEntryDescription (e : AgentLogEntry) : String :=
  if isTruthy e.content then e.content.getD ("")
  else if e.type == "tool_use" && isTruthy e.toolName then
    ((e.toolName.getD ("")).replace ("_") (" ")).capitalize
  else if e.type == "thinking" then "Agent thinking..."
  else if isTruthy e.message then e.message.getD ("")
  else "Processing..."

/-- From the AgentActivityLog component source: what the collapsed header
shows. -/
structure ActivityLogView where
  statusText : String
  stepCount : Nat
deriving DecidableEq

/-- From the AgentActivityLog component source: the component returns null for
an empty log; otherwise the header status text is the last entry description
while streaming and the summary (defaulting to Completed) afterwards. -/
def renderAgentActivityLog (log : List AgentLogEntry) (isStreaming : Bool)
    (summary : Option String) : Option ActivityLogView :=
  if log.length = 0 then none
  else
    some
      { statusText :=
          if isStreaming then getEntryDescription (log.getLastD default)
          else if isTruthy summary then summary.getD ("")
          else "Completed",
        stepCount := log.length }

/-- From the ApiKeyGate component source: the observable outcome of one submit,
recording the error message, the stored key, the key reported as validated and
the argument passed to validateApiKey (none when it was never called). -/
structure SubmitResult where
  error : Option String
  stored : Option String
  validatedKey : Option String
  validateArg : Option String
deriving DecidableEq

/-- JavaScript trim: strip leading and trailing whitespace, written with
structural recursion so it evaluates by reduction. -/
def jsTrim (s : String) : String :=
  ⟨((s.data.dropWhile Char.isWhitespace).reverse.dropWhile Char.isWhitespace).reverse⟩

/-- From the ApiKeyGate component source: the submit handler. A blank key is
rejected before any validation; otherwise the key is trimmed, validated, and
stored only on successful validation. -/
def handleSubmit (apiKey : String) (valid : String → Bool) (stored : Option String) :
    SubmitResult :=
  if jsTrim apiKey == "" then
    { error := some ("Please enter an API key"), stored := stored,
      validatedKey := none, validateArg := none }
  else
    if valid (jsTrim apiKey) then
      { error := none, stored := some (jsTrim apiKey),
        validatedKey := some (jsTrim apiKey), validateArg := some (jsTrim apiKey) }
    else
      { error := some ("Failed to validate API key"), stored := stored,
        validatedKey := none, validateArg := some (jsTrim apiKey) }

/-- A concrete two-unit document used by witnesses. -/
def sampleDoc : Doc :=
  { units := [{ index := 0, content := "Title" }, { index := 1, content := "Body" }],
    theme := "", revision := 0 }

/-- A concrete session with two units and nothing staged, used by witnesses. -/
def sampleSession : Session :=
  { doc := sampleDoc, pending := [], history := [], nextEditId := 0 }

/-- A concrete session with one staged ADD, used by witnesses. -/
def sampleAddSession : Session :=
  { doc := { units := [], theme := "", revision := 0 },
    pending := [{ editId := 0, unitIndex := some 0, operation := .add,
                  params := { content := some ("Title") }, preview := "" }],
    history := [], nextEditId := 1 }

/-- The applied-edit list commit produces on sampleAddSession, used by a
witness. -/
def sampleCommitApplied : List AppliedEdit :=
  [{ edit := { editId := 0, unitIndex := some 0, operation := .add,
               params := { content := some ("Title") }, preview := "" },
     revision := 1 }]

/-- The session commit produces on sampleAddSession, used by a witness. -/
def sampleCommitSession : Session :=
  { doc := { units := [{ index := 0, content := "Title" }], theme := "", revision := 1 },
    pending := [], history := sampleCommitApplied, nextEditId := 1 }

/-- A concrete template result with two screenshots, used by a witness. -/
def sampleTemplate : TemplateResult :=
  { filename := "deck.pptx",
    screenshots := [{ data := "d0", index := 0 }, { data := "d1", index := 1 }] }

/-- A concrete one-entry agent log, used by a witness. -/
def sampleLog : List AgentLogEntry :=
  [{ type := "thinking" }]

theorem map_index_renumberFrom (us : List DocUnit) :
    ∀ k, (renumberFrom k us).map DocUnit.index = List.range' k us.length := by
  induction us with
  | nil => intro k; simp [renumberFrom]
  | cons u rest ih => intro k; simp [renumberFrom, List.range'_succ, ih]

theorem map_index_renumber (us : List DocUnit) :
    (renumber us).map DocUnit.index = List.range us.length := by
  rw [renumber, map_index_renumberFrom, List.range_eq_range']

theorem length_renumber (us : List DocUnit) : (renumber us).length = us.length := by
  have h := congrArg List.length (map_index_renumber us)
  simpa using h

theorem renumber_contiguous (doc : Doc) (us : List DocUnit)
    (h : doc.units = renumber us) : contiguous doc := by
  rw [contiguous, h, map_index_renumber, length_renumber]

theorem map_index_updateContent (us : List DocUnit) :
    ∀ i c, (updateContent us i c).map DocUnit.index = us.map DocUnit.index := by
  induction us with
  | nil => intro i c; rfl
  | cons u rest ih =>
    intro i c
    cases i with
    | zero => simp [updateContent]
    | succ j => simp [updateContent, ih]

theorem length_updateContent (us : List DocUnit) (i : Nat) (c : String) :
    (updateContent us i c).length = us.length := by
  have h := congrArg List.length (map_index_updateContent us i c)
  simpa using h

theorem applyOp_ok_contiguous {doc d2 : Doc} {e : PendingEdit}
    (hdoc : contiguous doc) (h : applyOp doc e = .ok d2) : contiguous d2 := by
  unfold applyOp at h
  rcases e with ⟨id, ui, op, p, pv⟩
  cases op <;> simp only at h
  case add =>
    rcases ui with _ | i <;> rcases hc : p.content with _ | c <;> rw [hc] at h <;>
      simp only at h
    · exact absurd h (by simp)
    · exact absurd h (by simp)
    · exact absurd h (by simp)
    · split at h
      · cases h with
        | refl => exact renumber_contiguous _ _ rfl
      · exact absurd h (by simp)
  case update =>
    rcases ui with _ | i <;> rcases hc : p.content with _ | c <;> rw [hc] at h <;>
      simp only at h
    · exact absurd h (by simp)
    · exact absurd h (by simp)
    · exact absurd h (by simp)
    · split at h
      · cases h with
        | refl =>
          rw [contiguous] at hdoc ⊢
          simp only [map_index_updateContent, length_updateContent]
          exact hdoc
      · exact absurd h (by simp)
  case delete =>
    rcases ui with _ | i <;> simp only at h
    · exact absurd h (by simp)
    · split at h
      · cases h with
        | refl => exact renumber_contiguous _ _ rfl
      · exact absurd h (by simp)
  case reorder =>
    rcases ui with _ | i <;> rcases hc : p.toIndex with _ | j <;> rw [hc] at h <;>
      simp only at h
    · exact absurd h (by simp)
    · exact absurd h (by simp)
    · exact absurd h (by simp)
    · split at h
      · split at h
        · cases h with
          | refl => exact renumber_contiguous _ _ rfl
        · exact absurd h (by simp)
      · exact absurd h (by simp)
  case setTheme =>
    rcases hc : p.theme with _ | t <;> rw [hc] at h <;> simp only at h
    · exact absurd h (by simp)
    · cases h with
      | refl => exact hdoc

theorem applyOp_error_eq {doc : Doc} {e : PendingEdit} {c : CommitError}
    (h : applyOp doc e = .error c) : c = .commitConflict e := by
  unfold applyOp at h
  rcases e with ⟨id, ui, op, p, pv⟩
  cases op <;> simp only at h <;>
    repeat' first
    | rfl
    | (split at h)
    | (cases h; rfl)
    | (exact absurd h (by simp))

theorem commitFold_ok_spec {rev : Nat} :
    ∀ {es : List PendingEdit} {doc : Doc} {deleted : List Nat} {docF : Doc}
      {applied : List AppliedEdit},
      commitFold rev doc deleted es = .ok (docF, applied) →
      applied.map AppliedEdit.edit = es ∧ (∀ a ∈ applied, a.revision = rev) ∧
        (contiguous doc → contiguous docF) := by
  intro es
  induction es with
  | nil =>
    intro doc deleted docF applied h
    simp only [commitFold] at h
    cases h with
    | refl => exact ⟨rfl, by simp, fun hc => hc⟩
  | cons e rest ih =>
    intro doc deleted docF applied h
    simp only [commitFold] at h
    split at h
    · exact absurd h (by simp)
    · cases hap : applyOp doc e with
      | error err => rw [hap] at h; exact absurd h (by simp)
      | ok doc2 =>
        rw [hap] at h
        dsimp only at h
        cases hrec : commitFold rev doc2 (recordDeleted deleted e) rest with
        | error err => rw [hrec] at h; exact absurd h (by simp)
        | ok res =>
          rcases res with ⟨docF2, applied2⟩
          rw [hrec] at h
          dsimp only at h
          cases h with
          | refl =>
            obtain ⟨h1, h2, h3⟩ := ih hrec
            refine ⟨by simp [h1], ?_, ?_⟩
            · intro a ha
              rcases List.mem_cons.mp ha with ha | ha
              · rw [ha]
              · exact h2 a ha
            · intro hc
              exact h3 (applyOp_ok_contiguous hc hap)

theorem commitFold_error_mem {rev : Nat} :
    ∀ {es : List PendingEdit} {doc : Doc} {deleted : List Nat} {e : PendingEdit},
      commitFold rev doc deleted es = .error (.commitConflict e) → e ∈ es := by
  intro es
  induction es with
  | nil =>
    intro doc deleted e h
    exact absurd h (by simp [commitFold])
  | cons e0 rest ih =>
    intro doc deleted e h
    simp only [commitFold] at h
    split at h
    · injection h with h2
      cases h2
      exact List.mem_cons_self _ _
    · cases hap : applyOp doc e0 with
      | error err =>
        rw [hap] at h
        dsimp only at h
        injection h with h2
        subst h2
        have h3 := applyOp_error_eq hap
        injection h3 with h4
        rw [h4]
        exact List.mem_cons_self _ _
      | ok doc2 =>
        rw [hap] at h
        dsimp only at h
        cases hrec : commitFold rev doc2 (recordDeleted deleted e0) rest with
        | error err =>
          rw [hrec] at h
          dsimp only at h
          injection h with h2
          rw [h2] at hrec
          exact List.mem_cons_of_mem _ (ih hrec)
        | ok res =>
          rcases res with ⟨docF2, applied2⟩
          rw [hrec] at h
          dsimp only at h
          exact absurd h (by simp)

/-- C1: a commit either applies every staged edit in staging order, returning
an applied sequence that matches the staged sequence one for one and in order,
emptying the pending set and advancing the revision, or it applies nothing and
returns an error naming a staged edit; never a strict non-empty subset. -/
theorem commit_all_or_nothing (s : Session) :
    (∃ applied s2, commit s = .ok (applied, s2) ∧
        applied.map AppliedEdit.edit = s.pending ∧
        (∀ a ∈ applied, a.revision = s.doc.revision + 1) ∧
        s2.pending = [] ∧
        s2.doc.revision = s.doc.revision + 1 ∧
        s2.history = s.history ++ applied) ∨
    (∃ e, commit s = .error (.commitConflict e) ∧ e ∈ s.pending) := by
  unfold commit
  cases hc : commitFold (s.doc.revision + 1) s.doc [] s.pending with
  | error err =>
    rcases err with ⟨e⟩
    exact Or.inr ⟨e, rfl, commitFold_error_mem hc⟩
  | ok res =>
    rcases res with ⟨docF, applied⟩
    obtain ⟨h1, h2, _⟩ := commitFold_ok_spec hc
    exact Or.inl ⟨applied, _, rfl, h1, h2, rfl, rfl, rfl⟩

/-- C3: after any successful commit, including commits containing ADD, DELETE
or REORDER, the unit indices of the Document Model are exactly the contiguous
range 0..n-1, assuming the invariant held before the commit. -/
theorem commit_keeps_indices_contiguous (s : Session) (applied : List AppliedEdit)
    (s2 : Session) (hdoc : contiguous s.doc) (h : commit s = .ok (applied, s2)) :
    contiguous s2.doc := by
  unfold commit at h
  cases hc : commitFold (s.doc.revision + 1) s.doc [] s.pending with
  | error err => rw [hc] at h; exact absurd h (by simp)
  | ok res =>
    rcases res with ⟨docF, applied2⟩
    rw [hc] at h
    obtain ⟨_, _, h3⟩ := commitFold_ok_spec hc
    cases h with
    | refl => exact h3 hdoc

/-- Witness for C3 at a concrete commit of one staged ADD. -/
theorem commit_keeps_indices_contiguous_witness : contiguous sampleCommitSession.doc :=
  commit_keeps_indices_contiguous sampleAddSession sampleCommitApplied
    sampleCommitSession (by rfl) (by rfl)

/-- C5: discarding the pending set and then listing it yields the empty
sequence, for any prior staged content, and the discarded edits are not
applied to the Document Model. -/
theorem discard_then_list_empty (s : Session) :
    listPending (discardPending s) = [] ∧ (discardPending s).doc = s.doc ∧
      (discardPending s).history = s.history :=
  ⟨rfl, rfl, rfl⟩

theorem targetValid_false_iff (doc : Doc) (op : Operation) (ui : Option Nat) :
    targetValid doc op ui = false ↔
      (unitScoped op = true ∧ ∀ i, ui = some i → ¬ specIndexAllowed doc op i) := by
  cases op <;> cases ui <;>
    simp [targetValid, unitScoped, specIndexAllowed]
  all_goals omega

/-- C4: stage never changes the Document Model; it fails with InvalidTarget
exactly when the target index of a unit-scoped operation is outside the
current bounds (ADD additionally permitted at the current unit count), and it
fails with InvalidOperation when the target is fine but the params fail the
schema validation for the named operation. -/
theorem stage_validation_spec (s : Session) (op : Operation) (ui : Option Nat)
    (p : EditParams) :
    (∀ e s2, stage s op ui p = .ok (e, s2) →
        s2.doc = s.doc ∧ s2.pending = s.pending ++ [e]) ∧
    (stage s op ui p = .error .invalidTarget ↔
      unitScoped op = true ∧ ∀ i, ui = some i → ¬ specIndexAllowed s.doc op i) ∧
    (targetValid s.doc op ui = true → paramsValid op p = false →
      stage s op ui p = .error .invalidOperation) ∧
    (stage s op ui p = .error .invalidOperation → paramsValid op p = false) := by
  refine ⟨?_, ?_, ?_, ?_⟩
  · intro e s2 hok
    unfold stage at hok
    split at hok
    · split at hok
      · injection hok with hok2
        injection hok2 with he hs2
        subst he
        subst hs2
        exact ⟨rfl, rfl⟩
      · exact absurd hok (by simp)
    · exact absurd hok (by simp)
  · rw [← targetValid_false_iff]
    unfold stage
    cases htv : targetValid s.doc op ui <;>
      cases hpv : paramsValid op p <;> simp
  · intro htv2 hpv2
    unfold stage
    rw [htv2, hpv2]
    rfl
  · intro hio
    unfold stage at hio
    split at hio
    · split at hio
      · exact absurd hio (by simp)
      · rename_i hpv2
        simpa using hpv2
    · exact absurd hio (by simp)

/-- Witness for C4: staging a REORDER with an in-bounds target but missing
params fails with InvalidOperation. -/
theorem stage_validation_spec_witness :
    stage sampleSession .reorder (some 0) {} = .error .invalidOperation :=
  (stage_validation_spec sampleSession .reorder (some 0) {}).2.2.1 (by rfl) (by rfl)

theorem stage_ok (s : Session) (op : Operation) (ui : Option Nat) (p : EditParams)
    (htv : targetValid s.doc op ui = true) (hpv : paramsValid op p = true) :
    stage s op ui p = .ok (stagedEdit s op ui p, stagedSession s op ui p) := by
  unfold stage
  rw [htv, hpv]
  rfl

/-- C2: staging a DELETE of unit 1 and then an UPDATE of unit 1 in the same
turn succeeds at staging time, but the commit fails with a CommitConflict
naming the offending UPDATE edit, the Document Model is unchanged by the
failed commit, and both edits remain in the staged set. -/
theorem delete_then_update_commit_conflict (s : Session) (c : String)
    (h2 : 2 ≤ s.doc.units.length) (hp : s.pending = []) :
    ∃ e1 s1 e2 s2,
      stage s .delete (some 1) {} = .ok (e1, s1) ∧
      stage s1 .update (some 1) { content := some c } = .ok (e2, s2) ∧
      commit s2 = .error (.commitConflict e2) ∧
      s2.doc = s.doc ∧
      s2.pending = [e1, e2] := by
  have h1 : (1 : Nat) < s.doc.units.length := by omega
  have htv1 : targetValid s.doc .delete (some 1) = true := by
    simp [targetValid, unitScoped]
    omega
  have hst1 := stage_ok s .delete (some 1) {} htv1 rfl
  have htv2 : targetValid (stagedSession s .delete (some 1) {}).doc .update (some 1) = true := by
    simp [stagedSession, targetValid, unitScoped]
    omega
  have hst2 := stage_ok (stagedSession s .delete (some 1) {}) .update (some 1)
    { content := some c } htv2 rfl
  refine ⟨stagedEdit s .delete (some 1) {},
          stagedSession s .delete (some 1) {},
          stagedEdit (stagedSession s .delete (some 1) {}) .update (some 1)
            { content := some c },
          stagedSession (stagedSession s .delete (some 1) {}) .update (some 1)
            { content := some c },
          hst1, hst2, ?_, rfl, ?_⟩
  · have hpend : (stagedSession (stagedSession s .delete (some 1) {}) .update (some 1)
        { content := some c }).pending =
          [stagedEdit s .delete (some 1) {},
           stagedEdit (stagedSession s .delete (some 1) {}) .update (some 1)
             { content := some c }] := by
      simp [stagedSession, hp]
    unfold commit
    rw [hpend]
    simp [commitFold, conflictsDeleted, recordDeleted, applyOp, stagedEdit,
      stagedSession, h1, List.contains]
  · simp [stagedSession, hp]

/-- Witness for C2 at a concrete two-unit session. -/
theorem delete_then_update_commit_conflict_witness :
    ∃ e1 s1 e2 s2,
      stage sampleSession .delete (some 1) {} = .ok (e1, s1) ∧
      stage s1 .update (some 1) { content := some ("Updated") } = .ok (e2, s2) ∧
      commit s2 = .error (.commitConflict e2) ∧
      s2.doc = sampleSession.doc ∧
      s2.pending = [e1, e2] :=
  delete_then_update_commit_conflict sampleSession "Updated" (by decide) rfl

theorem numberFrom_map_sequence (es : List FramePayload) :
    ∀ o, (numberFrom o es).map StreamEvent.sequence = List.range' o es.length := by
  induction es with
  | nil => intro o; simp [numberFrom]
  | cons e rest ih => intro o; simp [numberFrom, List.range'_succ, ih]

theorem numberFrom_map_payload (es : List FramePayload) :
    ∀ o, (numberFrom o es).map StreamEvent.payload = es := by
  induction es with
  | nil => intro o; rfl
  | cons e rest ih => intro o; simp [numberFrom, ih]

theorem length_numberFrom (es : List FramePayload) (o : Nat) :
    (numberFrom o es).length = es.length := by
  have h := congrArg List.length (numberFrom_map_payload es o)
  simpa using h

/-- C6: for every turn and every outcome, the sequence numbers of the frames
the multiplexer delivers to the turn consumer are the gapless strictly
increasing range starting at the fixed origin; when the buffer capacity is
exceeded the delivered payloads end in an explicit BufferOverrun signal, so
loss is never silent. -/
theorem stream_sequence_gapless (cap origin : Nat) (events : List String) :
    ((muxDeliver cap origin events).map StreamEvent.sequence =
        List.range' origin (muxDeliver cap origin events).length) ∧
    List.Pairwise (fun a b => a < b)
      ((muxDeliver cap origin events).map StreamEvent.sequence) ∧
    (events.length ≤ cap →
      (muxDeliver cap origin events).map StreamEvent.payload =
        events.map FramePayload.event) ∧
    (cap < events.length →
      (muxDeliver cap origin events).map StreamEvent.payload =
        (events.take cap).map FramePayload.event ++ [FramePayload.overrun]) := by
  have hseq : (muxDeliver cap origin events).map StreamEvent.sequence =
      List.range' origin (muxDeliver cap origin events).length := by
    unfold muxDeliver
    split
    · rw [numberFrom_map_sequence, length_numberFrom]
    · rw [numberFrom_map_sequence, length_numberFrom]
  refine ⟨hseq, ?_, ?_, ?_⟩
  · rw [hseq]
    exact List.pairwise_lt_range' origin _
  · intro hle
    unfold muxDeliver
    rw [if_pos hle]
    exact numberFrom_map_payload _ _
  · intro hgt
    unfold muxDeliver
    rw [if_neg (by omega)]
    exact numberFrom_map_payload _ _

/-- Witness for C6 at capacity 1, origin 5 and two events, exercising the
overflow signalling branch. -/
theorem stream_sequence_gapless_witness :
    (muxDeliver 1 5 ["a", "b"]).map StreamEvent.payload =
      ((["a", "b"].take 1).map FramePayload.event ++ [FramePayload.overrun]) :=
  (stream_sequence_gapless 1 5 ["a", "b"]).2.2.2 (by decide)

theorem runLease_no_release_blocks (mid : List LeaseEvent) :
    ∀ (h t : Nat) (post : List LeaseEvent),
      (∀ e ∈ mid, isRelease e = false) →
      runLease (some h) (mid ++ LeaseEvent.acquired t :: post) = none := by
  induction mid with
  | nil =>
    intro h t post _
    simp [runLease, leaseStep]
  | cons e rest ih =>
    intro h t post hm
    cases e with
    | acquired t2 => simp [runLease, leaseStep]
    | busy t2 =>
      have hrest : ∀ e ∈ rest, isRelease e = false := by
        intro e he
        exact hm e (List.mem_cons_of_mem _ he)
      simpa [runLease, leaseStep] using ih h t post hrest
    | released t2 =>
      have := hm (.released t2) (List.mem_cons_self _ _)
      exact absurd this (by simp [isRelease])

theorem runLease_append (tr1 tr2 : List LeaseEvent) :
    ∀ st, runLease st (tr1 ++ tr2) =
      (runLease st tr1).bind (fun st2 => runLease st2 tr2) := by
  induction tr1 with
  | nil => intro st; rfl
  | cons e rest ih =>
    intro st
    cases hs : leaseStep st e with
    | none => simp [runLease, hs]
    | some st2 => simp [runLease, hs, ih]

/-- C7: two concurrent acquisitions of the same session lease never both hold
it: any trace in which a second acquisition succeeds with no release in
between is inadmissible; while the lease is held an acquisition attempt
cannot succeed but a SessionBusy observation can (the 0-duration timeout
fails immediately); and the scenario acquire-busy-release-reacquire is an
admissible trace ending with the second turn holding the lease. -/
theorem lease_mutual_exclusion :
    (∀ (pre mid post : List LeaseEvent) (t1 t2 : Nat),
        (∀ e ∈ mid, isRelease e = false) →
        runLease none
          (pre ++ LeaseEvent.acquired t1 :: (mid ++ LeaseEvent.acquired t2 :: post)) =
          none) ∧
    (∀ h t, leaseStep (some h) (.busy t) = some (some h) ∧
        leaseStep (some h) (.acquired t) = none ∧
        leaseStep none (.acquired t) = some (some t)) ∧
    (∀ t1 t2, runLease none
        [LeaseEvent.acquired t1, LeaseEvent.busy t2, LeaseEvent.released t1,
         LeaseEvent.acquired t2] = some (some t2)) := by
  refine ⟨?_, ?_, ?_⟩
  · intro pre mid post t1 t2 hm
    rw [runLease_append]
    cases hpre : runLease none pre with
    | none => rfl
    | some st =>
      cases st with
      | none =>
        have hred : (some (none : Option Nat)).bind
            (fun st2 => runLease st2
              (LeaseEvent.acquired t1 :: (mid ++ LeaseEvent.acquired t2 :: post))) =
            runLease (some t1) (mid ++ LeaseEvent.acquired t2 :: post) := rfl
        rw [hred]
        exact runLease_no_release_blocks mid t1 t2 post hm
      | some h => rfl
  · intro h t
    exact ⟨rfl, rfl, rfl⟩
  · intro t1 t2
    simp [runLease, leaseStep]

/-- Witness for C7: the trace in which turn 2 acquires while turn 1 still
holds the lease, separated only by a busy observation, is inadmissible. -/
theorem lease_mutual_exclusion_witness :
    runLease none
      ([] ++ LeaseEvent.acquired 1 :: ([LeaseEvent.busy 2] ++ LeaseEvent.acquired 2 :: [])) =
      none :=
  lease_mutual_exclusion.1 [] [LeaseEvent.busy 2] [] 1 2 (by decide)

/-- C8: when the screenshot list is non-empty the rendered caption is the
count, the word screenshot pluralized with a trailing s exactly when the count
is not 1, and the word extracted; when it is empty the caption is the fixed
text and no screenshot images are rendered. -/
theorem template_preview_caption_spec (t : TemplateResult) :
    (t.screenshots ≠ [] →
      templatePreviewCaption t =
        toString t.screenshots.length ++ " screenshot" ++
          (if t.screenshots.length = 1 then "" else "s") ++ " extracted") ∧
    (t.screenshots = [] →
      templatePreviewCaption t = "Text content extracted" ∧
        templatePreviewImages t = []) := by
  constructor
  · intro h
    have hl : 0 < t.screenshots.length := List.length_pos.mpr h
    unfold templatePreviewCaption
    rw [if_pos hl]
    by_cases h1 : t.screenshots.length = 1 <;> simp [h1]
  · intro h
    unfold templatePreviewCaption templatePreviewImages
    simp [h]

/-- Witness for C8 at a concrete template with two screenshots. -/
theorem template_preview_caption_spec_witness :
    templatePreviewCaption sampleTemplate =
      toString sampleTemplate.screenshots.length ++ " screenshot" ++
        (if sampleTemplate.screenshots.length = 1 then "" else "s") ++ " extracted" :=
  (template_preview_caption_spec sampleTemplate).1 (by decide)

/-- C9: the activity log component renders nothing for an empty log, whatever
the streaming flag and summary are; for a non-empty log while streaming, the
collapsed header status text is the description of the last log entry. -/
theorem activity_log_render_spec :
    (∀ (isStreaming : Bool) (summary : Option String),
        renderAgentActivityLog [] isStreaming summary = none) ∧
    (∀ (log : List AgentLogEntry) (summary : Option String), log ≠ [] →
        ∃ v, renderAgentActivityLog log true summary = some v ∧
          v.statusText = getEntryDescription (log.getLastD default) ∧
          v.stepCount = log.length) := by
  constructor
  · intro b sm
    rfl
  · intro log sm h
    refine ⟨{ statusText := getEntryDescription (log.getLastD default),
              stepCount := log.length }, ?_, rfl, rfl⟩
    unfold renderAgentActivityLog
    rw [if_neg (by simp [List.length_eq_zero, h])]
    rfl

/-- Witness for C9 at a concrete one-entry log. -/
theorem activity_log_render_spec_witness :
    ∃ v, renderAgentActivityLog sampleLog true none = some v ∧
      v.statusText = getEntryDescription (sampleLog.getLastD default) ∧
      v.stepCount = sampleLog.length :=
  activity_log_render_spec.2 sampleLog none (by decide)

/-- C10: submitting a blank or whitespace-only key sets the fixed error
message, never calls validateApiKey and leaves the stored key unchanged;
otherwise the key is trimmed before validation and only a successfully
validated trimmed key is stored. -/
theorem api_key_submit_spec (apiKey : String) (valid : String → Bool)
    (stored : Option String) :
    (jsTrim apiKey = "" →
      (handleSubmit apiKey valid stored).error = some ("Please enter an API key") ∧
      (handleSubmit apiKey valid stored).validateArg = none ∧
      (handleSubmit apiKey valid stored).stored = stored) ∧
    (jsTrim apiKey ≠ "" →
      (handleSubmit apiKey valid stored).validateArg = some (jsTrim apiKey) ∧
      (valid (jsTrim apiKey) = true →
        (handleSubmit apiKey valid stored).stored = some (jsTrim apiKey) ∧
        (handleSubmit apiKey valid stored).error = none) ∧
      (valid (jsTrim apiKey) = false →
        (handleSubmit apiKey valid stored).stored = stored)) := by
  constructor
  · intro h
    unfold handleSubmit
    simp [h]
  · intro h
    unfold handleSubmit
    have hne : (jsTrim apiKey == "") = false := by
      simpa using h
    rw [hne]
    cases hv : valid (jsTrim apiKey) with
    | false => simp [hv]
    | true => simp [hv]

/-- Witness for C10 at a whitespace-only key. -/
theorem api_key_submit_spec_witness :
    (handleSubmit "   " (fun _ => true) (some ("old"))).error =
        some ("Please enter an API key") ∧
      (handleSubmit "   " (fun _ => true) (some ("old"))).validateArg = none ∧
      (handleSubmit "   " (fun _ => true) (some ("old"))).stored = some ("old") :=
  (api_key_submit_spec "   " (fun _ => true) (some ("old"))).1 (by decide)

end PresentationApp
